import Mathlib

/-!
Verification development for the wimlib extraction and serialisation engines
(src/src/extract.c, src/src/write.c), via a shallow embedding of the C code.

Streams (lookup-table entries), inodes and dentries are identified by numeric
ids; transient per-object fields of the C structs become finite maps
(functions out of Nat) inside explicit state records.  The embedding follows
the UNIX build with NTFS-3g support, which is the configuration that decides
the alternate-data-stream branch in dentry_find_streams_to_extract.
-/

namespace Wimlib

/-- Error codes (WIMLIB_ERR_*) relevant to the embedded functions. -/
inductive WimErr where
  | nomem
  | path_does_not_exist
  | not_a_regular_file
  | rename
  | write_err
  | open_err
  | no_filename
  | invalid_image
  | invalid_param
deriving DecidableEq

/-- Extraction flags (WIMLIB_EXTRACT_FLAG_*), decoded from the C bit mask
into a record of booleans; each field corresponds to one tested bit. -/
structure ExtractFlags where
  ntfs : Bool
  hardlink : Bool
  symlink : Bool
  verbose : Bool
  sequential : Bool
  unix_data : Bool
  rpfix : Bool
  norpfix : Bool
  to_stdout : Bool
  no_streams : Bool
  multi_image : Bool
deriving DecidableEq

/-- The all-clear extract-flags value (extract_flags = 0). -/
def ExtractFlags.none : ExtractFlags :=
  ⟨false, false, false, false, false, false, false, false, false, false, false⟩

/-- Alternate data stream entry of an inode (struct wim_ads_entry):
the name length in bytes and the resolved lookup-table entry, if any. -/
structure AdsEntry where
  stream_name_nbytes : Nat
  lte : Option Nat
deriving DecidableEq

/-- Inode (struct wim_inode): identity, the resolved lookup-table entry of
the unnamed stream (inode_unnamed_lte_resolved), the ADS entries, and the
type bits consulted by dentry_is_directory / dentry_is_regular_file. -/
structure WimInode where
  i_id : Nat
  unnamed_lte : Option Nat
  i_ads_entries : List AdsEntry
  is_directory : Bool
  is_regular_file : Bool
deriving DecidableEq

/-- Dentry (struct wim_dentry): identity, name, inode, and the cached full
path inside the image (the _full_path field, computed by
calculate_dentry_tree_full_paths, with a leading slash). -/
structure WimDentry where
  d_id : Nat
  name : List Char
  d_inode : WimInode
  full_path : List Char
deriving DecidableEq

/-- Dentry tree: a dentry together with its children. -/
inductive DTree where
  | node (dentry : WimDentry) (children : List DTree)

/-- Dentry at the root of a tree. -/
def DTree.dentry : DTree → WimDentry
  | .node d _ => d

mutual
/-- Pre-order dentry sequence of a tree: the visiting order of
for_dentry_in_tree (root first, then each child subtree in order). -/
def preorder : DTree → List WimDentry
  | .node d cs => d :: preorderList cs

/-- Pre-order dentry sequence of a forest. -/
def preorderList : List DTree → List WimDentry
  | [] => []
  | t :: ts => preorder t ++ preorderList ts
end

mutual
/-- Post-order dentry sequence of a tree: the visiting order of
for_dentry_in_tree_depth (children first, root last). -/
def postorder : DTree → List WimDentry
  | .node d cs => postorderList cs ++ [d]

/-- Post-order dentry sequence of a forest. -/
def postorderList : List DTree → List WimDentry
  | [] => []
  | t :: ts => postorder t ++ postorderList ts
end

/-- Per-stream information of a lookup-table entry that the extraction code
reads: wim_resource_size, resource_entry.offset, and whether the transient
extracted_file marker is set. -/
structure LteInfo where
  size : Nat
  offset : Nat
  extracted_file : Bool
deriving DecidableEq

/-- The WIM pieces consulted by extract_tree: the selected image's dentry
tree and the lookup table (stream id to stream information). -/
structure WimLite where
  tree : DTree
  ltes : Nat → LteInfo

/-! ## Extraction planner (find_streams_for_extraction) -/

/-- Transient planner state: out_refcnt and lte_dentry_list live on the
lookup-table entries, i_visited on the inodes, needs_extraction on the
dentries, and stream_list is the output extraction list of stream ids. -/
structure FindStreamsCtx where
  out_refcnt : Nat → Nat
  lte_dentry_list : Nat → List WimDentry
  stream_list : List Nat
  i_visited : Nat → Bool
  needs_extraction : Nat → Bool

/-- The all-zero transient state: out_refcnt zero, empty dentry lists,
empty stream list, i_visited and needs_extraction clear (the lifecycle
invariant at the start of an extraction). -/
def cleanFindStreamsCtx : FindStreamsCtx :=
  ⟨fun _ => 0, fun _ => [], [], fun _ => false, fun _ => false⟩

/-- maybe_add_stream_for_extraction: increment the stream's out_refcnt; on
the 0 to 1 transition initialise its per-extraction dentry list and append
the stream to the output stream list. -/
def maybe_add_stream_for_extraction (lte : Nat) (ctx : FindStreamsCtx) :
    FindStreamsCtx :=
  let r := ctx.out_refcnt lte + 1
  { ctx with
    out_refcnt := fun s => if s = lte then r else ctx.out_refcnt s,
    lte_dentry_list :=
      if r = 1 then fun s => if s = lte then [] else ctx.lte_dentry_list s
      else ctx.lte_dentry_list,
    stream_list :=
      if r = 1 then ctx.stream_list ++ [lte] else ctx.stream_list }

/-- Append a dentry to a stream's per-extraction dentry list
(list_add_tail of dentry->tmp_list onto lte->lte_dentry_list). -/
def addDentryToLte (s : Nat) (dentry : WimDentry) (ctx : FindStreamsCtx) :
    FindStreamsCtx :=
  { ctx with
    lte_dentry_list := fun t =>
      if t = s then ctx.lte_dentry_list s ++ [dentry]
      else ctx.lte_dentry_list t }

/-- One iteration of the ADS loop in dentry_find_streams_to_extract: the
pair carries the context and the dentry_added flag. -/
def dentry_ads_step (dentry : WimDentry) (p : FindStreamsCtx × Bool)
    (e : AdsEntry) : FindStreamsCtx × Bool :=
  if e.stream_name_nbytes ≠ 0 then
    match e.lte with
    | some s =>
      let ctx :=
        if !(p.1.i_visited dentry.d_inode.i_id) then
          maybe_add_stream_for_extraction s p.1
        else p.1
      if !p.2 then (addDentryToLte s dentry ctx, true) else (ctx, p.2)
    | none => p
  else p

/-- dentry_find_streams_to_extract: mark the dentry as needing extraction,
register the unnamed stream (first inode visit only), enqueue the dentry
under its first reachable stream, optionally do the same for the alternate
data streams, and finally mark the inode visited. -/
def dentry_find_streams_to_extract (include_ads : Bool)
    (ctx0 : FindStreamsCtx) (dentry : WimDentry) : FindStreamsCtx :=
  let inode := dentry.d_inode
  let ctx :=
    { ctx0 with
      needs_extraction := fun i =>
        if i = dentry.d_id then true else ctx0.needs_extraction i }
  let step1 : FindStreamsCtx × Bool :=
    match inode.unnamed_lte with
    | some s =>
      let ctx1 :=
        if !(ctx.i_visited inode.i_id) then
          maybe_add_stream_for_extraction s ctx
        else ctx
      (addDentryToLte s dentry ctx1, true)
    | none => (ctx, false)
  let step2 : FindStreamsCtx × Bool :=
    if include_ads then inode.i_ads_entries.foldl (dentry_ads_step dentry) step1
    else step1
  { step2.1 with
    i_visited := fun i =>
      if i = inode.i_id then true else step2.1.i_visited i }

/-- Resolved stream ids of an inode, in the order of inode_stream_lte_resolved
indices 0 .. i_num_ads (unnamed stream first, then every ADS entry). -/
def inodeStreams (inode : WimInode) : List Nat :=
  (match inode.unnamed_lte with | some s => [s] | none => []) ++
    inode.i_ads_entries.filterMap (fun e => e.lte)

/-- dentry_resolve_and_zero_lte_refcnt: zero out_refcnt on every stream
resolved from the dentry's inode. -/
def dentry_resolve_and_zero_lte_refcnt (ctx : FindStreamsCtx)
    (dentry : WimDentry) : FindStreamsCtx :=
  { ctx with
    out_refcnt := fun s =>
      if s ∈ inodeStreams dentry.d_inode then 0 else ctx.out_refcnt s }

/-- Whether ADS entries participate in planning.  On the modelled build
(UNIX with NTFS-3g) this is the NTFS extraction flag. -/
def ads_entries_included (ef : ExtractFlags) : Bool := ef.ntfs

/-- find_streams_for_extraction: the zeroing pass, a fresh output stream
list, then the stream-discovery pass, both in pre-order. -/
def find_streams_for_extraction (root : DTree) (ef : ExtractFlags)
    (init : FindStreamsCtx) : FindStreamsCtx :=
  let ctx := (preorder root).foldl dentry_resolve_and_zero_lte_refcnt init
  let ctx := { ctx with stream_list := [] }
  (preorder root).foldl
    (dentry_find_streams_to_extract (ads_entries_included ef)) ctx

/-! ## Counting stream references, for the planner invariant -/

/-- Whether one ADS entry qualifies for planner registration: a nonempty
stream name and a resolved stream. -/
def adsQualifies (e : AdsEntry) : Bool :=
  decide (e.stream_name_nbytes ≠ 0) && e.lte.isSome

/-- Number of stream references of one inode that the planner registers:
one for the unnamed stream if present, plus (when ADS entries are included)
one per ADS entry with a nonempty name and a resolved stream. -/
def inode_stream_refs (include_ads : Bool) (inode : WimInode) : Nat :=
  (match inode.unnamed_lte with | some _ => 1 | none => 0) +
    (if include_ads then
      (inode.i_ads_entries.filter adsQualifies).length
    else 0)

/-- Number of (dentry, stream) reference pairs over a dentry sequence:
every dentry contributes all of its inode's stream references. -/
def dentry_stream_pairs (include_ads : Bool) (ds : List WimDentry) : Nat :=
  (ds.map (fun d => inode_stream_refs include_ads d.d_inode)).sum

/-- The inodes of a dentry sequence, keeping only the first dentry of each
inode id (the accumulator is the set of already-seen inode ids). -/
def first_visit_inodes : List WimDentry → List Nat → List WimInode
  | [], _ => []
  | d :: ds, seen =>
    if d.d_inode.i_id ∈ seen then first_visit_inodes ds seen
    else d.d_inode :: first_visit_inodes ds (d.d_inode.i_id :: seen)

/-- Number of (inode, stream) reference pairs over a dentry sequence: each
inode is counted once, however many dentries (hard links) share it. -/
def inode_stream_pairs (include_ads : Bool) (ds : List WimDentry) : Nat :=
  ((first_visit_inodes ds []).map (inode_stream_refs include_ads)).sum

/-- Sum of out_refcnt over all stream descriptors of a lookup table. -/
def lt_out_refcnt_sum (lt : List Nat) (ctx : FindStreamsCtx) : Nat :=
  (lt.map ctx.out_refcnt).sum

/-- All stream references of a dentry's inode lie in the lookup table. -/
def StreamRefsIn (lt : List Nat) (d : WimDentry) : Prop :=
  (∀ s, d.d_inode.unnamed_lte = some s → s ∈ lt) ∧
    (∀ e ∈ d.d_inode.i_ads_entries, ∀ s, e.lte = some s → s ∈ lt)

instance (lt : List Nat) (d : WimDentry) : Decidable (StreamRefsIn lt d) := by
  unfold StreamRefsIn; infer_instance

/-! ## Output path composition (do_apply_op) -/

/-- do_apply_op's output-path construction: full_path is the dentry's stored
full path with its leading slash skipped (the +1 on _full_path) and
full_path_nchars its length; the buffer receives the target, then, when the
dentry is not the extraction root, a slash and the
(full_path_nchars - wim_source_path_nchars) characters of full_path past the
wim-source-path prefix. -/
def do_apply_op (target : List Char) (stored_full_path : List Char)
    (wim_source_path_nchars : Nat) (is_root : Bool) : List Char :=
  let full_path := stored_full_path.drop 1
  let full_path_nchars := stored_full_path.length - 1
  target ++
    (if is_root then []
     else '/' ::
       ((full_path.drop wim_source_path_nchars).take
         (full_path_nchars - wim_source_path_nchars)))

/-! ## Progress events and the extraction executor -/

/-- Progress messages (WIMLIB_PROGRESS_MSG_*) emitted by extract_tree. -/
inductive PMsg where
  | extract_tree_begin
  | extract_image_begin
  | dir_structure_begin
  | dir_structure_end
  | extract_dentry (cur_path : List Char)
  | extract_streams (completed_bytes total_bytes : Nat)
  | apply_timestamps
  | extract_tree_end
  | extract_image_end
deriving DecidableEq

/-- Observable effects of one extract_tree call: progress callbacks,
backend filesystem operations, and writes to standard output. -/
inductive Ev where
  | progress (m : PMsg)
  | applyDentry (output_path : List Char) (d_id : Nat)
  | applyTimestampsTo (output_path : List Char) (d_id : Nat)
  | stdoutWrite (size : Nat)
deriving DecidableEq

/-- Arguments threaded through the apply callbacks (struct apply_args). -/
structure ApplyArgs where
  flags : ExtractFlags
  target : List Char
  wim_source_path_nchars : Nat
  extract_root_id : Nat
  hasProgress : Bool
  total_bytes : Nat
  ltes : Nat → LteInfo

/-- Mutable state of the apply phases: the dentries' needs_extraction
flags, the progress counter completed_bytes, and the emitted effects. -/
structure XState where
  needs_extraction : Nat → Bool
  completed : Nat
  events : List Ev

/-- maybe_apply_dentry: skip dentries that no longer need extraction; under
NO_STREAMS skip non-directories whose inode has a resolved unnamed stream;
otherwise emit the VERBOSE progress message, run the backend apply
(modelled as an applyDentry effect at the do_apply_op output path which, as
the spec describes for the backends that live outside src/, adds the
extracted unnamed stream's bytes to completed_bytes, or nothing under
NO_STREAMS), and clear needs_extraction on success. -/
def maybe_apply_dentry (args : ApplyArgs) (x : XState)
    (dentry : WimDentry) : XState :=
  if !(x.needs_extraction dentry.d_id) then x
  else if args.flags.no_streams && !dentry.d_inode.is_directory &&
      dentry.d_inode.unnamed_lte.isSome then x
  else
    let evs :=
      if args.flags.verbose && args.hasProgress then
        x.events ++ [.progress (.extract_dentry dentry.full_path)]
      else x.events
    let output_path :=
      do_apply_op args.target dentry.full_path args.wim_source_path_nchars
        (dentry.d_id == args.extract_root_id)
    let bytes :=
      if args.flags.no_streams then 0
      else
        match dentry.d_inode.unnamed_lte with
        | some s => (args.ltes s).size
        | none => 0
    { needs_extraction := fun i =>
        if i = dentry.d_id then false else x.needs_extraction i,
      completed := x.completed + bytes,
      events := evs ++ [.applyDentry output_path dentry.d_id] }

/-- apply_dentry_timestamps_normal: a timestamp-application effect at the
do_apply_op output path. -/
def apply_dentry_timestamps_normal (args : ApplyArgs) (x : XState)
    (dentry : WimDentry) : XState :=
  { x with
    events := x.events ++
      [.applyTimestampsTo
        (do_apply_op args.target dentry.full_path args.wim_source_path_nchars
          (dentry.d_id == args.extract_root_id))
        dentry.d_id] }

/-- Loop state of apply_stream_list: the apply state plus next_progress,
where none models the ~0ULL sentinel that disables further emissions. -/
structure PState where
  x : XState
  next_progress : Option Nat

/-- One iteration of the inner loop of apply_stream_list: apply the dentry,
then, with a progress function present and completed_bytes at or past
next_progress, emit EXTRACT_STREAMS and advance next_progress to the
sentinel (once the total is reached) or to
min(completed_bytes + total_bytes/100, total_bytes). -/
def stream_pair_step (args : ApplyArgs) (ps : PState)
    (dentry : WimDentry) : PState :=
  let x := maybe_apply_dentry args ps.x dentry
  match ps.next_progress with
  | some np =>
    if args.hasProgress ∧ np ≤ x.completed then
      let x :=
        { x with
          events := x.events ++
            [.progress (.extract_streams x.completed args.total_bytes)] }
      if args.total_bytes ≤ x.completed then ⟨x, none⟩
      else ⟨x, some (min (x.completed + args.total_bytes / 100) args.total_bytes)⟩
    else ⟨x, some np⟩
  | none => ⟨x, none⟩

/-- apply_stream_list: for each stream of the extraction list in order, for
each dentry on its per-extraction dentry list, run maybe_apply_dentry and
the 1%-threshold progress protocol. -/
def apply_stream_list (args : ApplyArgs) (stream_list : List Nat)
    (dlist : Nat → List WimDentry) (x : XState) : XState :=
  (stream_list.foldl
      (fun ps s => (dlist s).foldl (stream_pair_step args) ps)
      ⟨x, some (args.total_bytes / 100)⟩).x

/-! ## calculate_bytes_to_extract -/

/-- calculate_bytes_to_extract: in the symlink or hardlink modes each
stream without an extracted_file marker counts once; otherwise each stream
counts out_refcnt times, with out_refcnt times its size bytes.  Returns
(num_streams, total_bytes). -/
def calculate_bytes_to_extract (ltes : Nat → LteInfo)
    (stream_list : List Nat) (ef : ExtractFlags)
    (out_refcnt : Nat → Nat) : Nat × Nat :=
  stream_list.foldl
    (fun acc s =>
      if ef.symlink || ef.hardlink then
        if !(ltes s).extracted_file then (acc.1 + 1, acc.2 + (ltes s).size)
        else acc
      else (acc.1 + out_refcnt s, acc.2 + out_refcnt s * (ltes s).size))
    (0, 0)

/-! ## Sorting the stream list by archive position -/

/-- Modelled from the spec: cmp_streams_by_wim_position (the qsort
comparator, defined outside src/) orders two lookup-table entries by their
archive position, resource_entry.offset. -/
def cmp_streams_by_wim_position (ltes : Nat → LteInfo) (a b : Nat) : Int :=
  if (ltes a).offset < (ltes b).offset then -1
  else if (ltes b).offset < (ltes a).offset then 1
  else 0

/-- Contract of the C standard library qsort as used by
sort_stream_list_by_wim_position: the output is a permutation of the input
that is pairwise non-positive under the comparator.  The relative order of
elements that compare equal is not specified. -/
def IsQsortResult (cmp : Nat → Nat → Int) (l l' : List Nat) : Prop :=
  l'.Perm l ∧ l'.Pairwise (fun a b => cmp a b ≤ 0)

/-- Stability by key over the original list order: elements with equal keys
keep their relative positions. -/
def StableByKey (key : Nat → Nat) (orig out : List Nat) : Prop :=
  ∀ a ∈ orig, ∀ b ∈ orig, key a = key b →
    orig.indexOf a ≤ orig.indexOf b → out.indexOf a ≤ out.indexOf b

instance (key : Nat → Nat) (orig out : List Nat) :
    Decidable (StableByKey key orig out) := by
  unfold StableByKey; infer_instance

/-- sort_stream_list_by_wim_position: count the list, allocate an array
(allocation failure returns WIMLIB_ERR_NOMEM with the list untouched),
qsort it with cmp_streams_by_wim_position, and relink the list in array
order.  The qsort itself is a parameter constrained by IsQsortResult. -/
def sort_stream_list_by_wim_position (qsortImpl : List Nat → List Nat)
    (allocOk : Bool) (stream_list : List Nat) : Except WimErr (List Nat) :=
  if !allocOk then .error .nomem
  else .ok (qsortImpl stream_list)

/-! ## Extracting to standard output -/

/-- Modelled from the spec: dentry_is_regular_file (dentry.c, outside src/)
reads the inode's attribute bits; the embedding carries the result on the
inode. -/
def dentry_is_regular_file (dentry : WimDentry) : Bool :=
  dentry.d_inode.is_regular_file

/-- extract_dentry_to_stdout: a non-regular-file dentry fails with
WIMLIB_ERR_NOT_A_REGULAR_FILE before anything is written; otherwise the
unnamed stream, if present, is written to standard output. -/
def extract_dentry_to_stdout (ltes : Nat → LteInfo)
    (dentry : WimDentry) : Except WimErr (List Ev) :=
  if !dentry_is_regular_file dentry then .error .not_a_regular_file
  else
    match dentry.d_inode.unnamed_lte with
    | some s => .ok [.stdoutWrite (ltes s).size]
    | none => .ok []

/-! ## Path lookup -/

/-- Segments of a canonical wim path (split on the slash separator). -/
def splitPath : List Char → List (List Char)
  | [] => [[]]
  | c :: cs =>
    let rest := splitPath cs
    if c = '/' then [] :: rest
    else (c :: rest.headD []) :: rest.tail

/-- Child of a forest with the given dentry name. -/
def findChild : List DTree → List Char → Option DTree
  | [], _ => none
  | t :: ts, nm => if t.dentry.name = nm then some t else findChild ts nm

/-- Descend a dentry tree along path segments. -/
def lookupSegs : DTree → List (List Char) → Option DTree
  | t, [] => some t
  | .node _ cs, seg :: rest =>
    match findChild cs seg with
    | some c => lookupSegs c rest
    | none => none

/-- Modelled from the spec: get_dentry (dentry.c, outside src/) looks a
dentry up by canonical slash-separated path with no leading or trailing
slash; the empty path names the root. -/
def get_dentry (t : DTree) (path : List Char) : Option DTree :=
  if path = [] then some t else lookupSegs t (splitPath path)

/-! ## extract_tree -/

/-- Result of one extract_tree call: the return code, the effect sequence,
whether the WARNING fallback of the sequential sort fired (a log-channel
message, not a progress event), and the computed total_bytes and final
completed_bytes. -/
structure ExtractOutcome where
  ret : Except WimErr Unit
  events : List Ev
  warned : Bool
  total : Nat
  completed : Nat

/-- Phases A (directory structure, under NO_STREAMS), B (stream payloads)
and C (timestamps, post-order) of extract_tree, together with their
progress messages, run after the stream list has (possibly) been sorted. -/
def run_extract_phases (wim : WimLite) (root : DTree)
    (ctx : FindStreamsCtx) (stream_list : List Nat) (ef : ExtractFlags)
    (wim_source_path target : List Char) (hasProgress : Bool)
    (total : Nat) : List Ev × Nat :=
  let args : ApplyArgs :=
    ⟨{ ef with no_streams := true }, target, wim_source_path.length,
      root.dentry.d_id, hasProgress, total, wim.ltes⟩
  let x0 : XState := ⟨ctx.needs_extraction, 0, []⟩
  let xA := (preorder root).foldl (maybe_apply_dentry args) x0
  let argsB := { args with flags := { args.flags with no_streams := false } }
  let xB := apply_stream_list argsB stream_list ctx.lte_dentry_list
    { xA with events := [] }
  let xC := (postorder root).foldl (apply_dentry_timestamps_normal argsB)
    { xB with events := [] }
  let evs :=
    (if hasProgress then [Ev.progress .dir_structure_begin] else []) ++
    xA.events ++
    (if hasProgress then [Ev.progress .dir_structure_end] else []) ++
    xB.events ++
    (if hasProgress then [Ev.progress .apply_timestamps] else []) ++
    xC.events ++
    (if hasProgress then
      [Ev.progress
        (if wim_source_path.isEmpty then .extract_image_end
         else .extract_tree_end)]
    else [])
  (evs, xC.completed)

/-- extract_tree: look up the extraction root, plan the stream list,
compute the progress totals, divert to standard output under TO_STDOUT,
emit the begin message, sort the stream list under SEQUENTIAL (falling back
with a warning and a cleared SEQUENTIAL flag when the sort's allocation
fails), and run the three apply phases. -/
def extract_tree (wim : WimLite) (wim_source_path target : List Char)
    (ef : ExtractFlags) (hasProgress : Bool) (sortAllocOk : Bool)
    (qsortImpl : List Nat → List Nat) : ExtractOutcome :=
  match get_dentry wim.tree wim_source_path with
  | none => ⟨.error .path_does_not_exist, [], false, 0, 0⟩
  | some root =>
    let ctx := find_streams_for_extraction root ef cleanFindStreamsCtx
    let total :=
      (calculate_bytes_to_extract wim.ltes ctx.stream_list ef
        ctx.out_refcnt).2
    if ef.to_stdout then
      match extract_dentry_to_stdout wim.ltes root.dentry with
      | .ok evs => ⟨.ok (), evs, false, total, 0⟩
      | .error e => ⟨.error e, [], false, total, 0⟩
    else
      let beginEvs :=
        if hasProgress then
          [Ev.progress
            (if wim_source_path.isEmpty then .extract_image_begin
             else .extract_tree_begin)]
        else []
      let sorted : List Nat × ExtractFlags × Bool :=
        if ef.sequential then
          match sort_stream_list_by_wim_position qsortImpl sortAllocOk
              ctx.stream_list with
          | .ok l => (l, ef, false)
          | .error _ => (ctx.stream_list, { ef with sequential := false }, true)
        else (ctx.stream_list, ef, false)
      let rest := run_extract_phases wim root ctx sorted.1 sorted.2.1
        wim_source_path target hasProgress total
      ⟨.ok (), beginEvs ++ rest.1, sorted.2.2, total, rest.2⟩

/-! ## The writer: finish_write -/

/-- On-disk resource entry (struct resource_entry). -/
structure ResourceEntry where
  offset : Nat
  size : Nat
  original_size : Nat
  flags : Nat
deriving DecidableEq

/-- The all-zero resource entry (memset to 0). -/
def zeroResourceEntry : ResourceEntry := ⟨0, 0, 0, 0⟩

/-- WIM header fields that finish_write rewrites. -/
structure WimHeader where
  lookup_table_res_entry : ResourceEntry
  xml_res_entry : ResourceEntry
  integrity : ResourceEntry
  boot_metadata_res_entry : ResourceEntry
  image_count : Nat
  boot_idx : Nat
deriving DecidableEq

/-- WIM state consulted by finish_write: the in-memory header and, per
image, the metadata stream's output_resource_entry
(image_metadata[i].lookup_table_entry->output_resource_entry); the list is
empty exactly when the image_metadata pointer is NULL. -/
structure WIMStructW where
  hdr : WimHeader
  image_metadata : List ResourceEntry
deriving DecidableEq

/-- Write flags (WIMLIB_WRITE_FLAG_*). -/
structure WriteFlags where
  check_integrity : Bool
  show_progress : Bool
deriving DecidableEq

/-- The image selector value WIM_ALL_IMAGES. -/
def WIM_ALL_IMAGES : Int := -1

/-- The fixed on-disk header size WIM_HEADER_DISK_SIZE. -/
def WIM_HEADER_DISK_SIZE : Nat := 208

/-- The resource flag WIM_RESHDR_FLAG_METADATA. -/
def WIM_RESHDR_FLAG_METADATA : Nat := 2

/-- File positions recorded while finish_write runs: the ftello results
taken immediately before the lookup table, XML data and integrity table are
written, the (start, end) region handed to write_integrity_table, and
whether the header was rewritten at offset 0. -/
structure FinishTrace where
  pos_before_lookup_table : Option Nat
  pos_before_xml : Nat
  pos_before_integrity : Nat
  integrity_region : Option (Nat × Nat)
  header_rewritten_at_start : Bool
deriving DecidableEq

/-- finish_write: record the lookup-table offset and write the lookup table
(when write_lt is set), record the XML offset, patch the lookup-table
entry, write the XML data and size its entry, optionally write the
integrity table over the region from the fixed header size to the XML
offset and record its entry (zeroed otherwise), fix up the boot-metadata
entry and the single-image image_count/boot_idx, and rewrite the header at
offset 0.  The byte counts produced by the external writers
(write_lookup_table, write_xml_data, write_integrity_table) and the file
position on entry are parameters. -/
def finish_write (w : WIMStructW) (image : Int) (wflags : WriteFlags)
    (write_lt : Bool) (startPos ltBytes xmlBytes intBytes : Nat) :
    WimHeader × FinishTrace :=
  let lookup_table_offset := startPos
  let pos := if write_lt then startPos + ltBytes else startPos
  let xml_data_offset := pos
  let hdr := w.hdr
  let hdr :=
    if write_lt then
      { hdr with
        lookup_table_res_entry :=
          { hdr.lookup_table_res_entry with
            offset := lookup_table_offset,
            size := xml_data_offset - lookup_table_offset } }
    else hdr
  let hdr :=
    { hdr with
      lookup_table_res_entry :=
        { hdr.lookup_table_res_entry with
          original_size := hdr.lookup_table_res_entry.size,
          flags := WIM_RESHDR_FLAG_METADATA } }
  let pos := pos + xmlBytes
  let integrity_offset := pos
  let xml_data_size := integrity_offset - xml_data_offset
  let hdr :=
    { hdr with
      xml_res_entry :=
        ⟨xml_data_offset, xml_data_size, xml_data_size, 0⟩ }
  let intResult : WimHeader × Option (Nat × Nat) × Nat :=
    if wflags.check_integrity then
      let end_offset := pos + intBytes
      let integrity_size := end_offset - integrity_offset
      ({ hdr with
          integrity :=
            { offset := integrity_offset, size := integrity_size,
              original_size := integrity_size,
              flags := hdr.integrity.flags } },
        some (WIM_HEADER_DISK_SIZE, xml_data_offset), end_offset)
    else
      ({ hdr with
          integrity :=
            { offset := 0, size := 0, original_size := 0,
              flags := hdr.integrity.flags } },
        none, pos)
  let hdr := intResult.1
  let hdr := { hdr with integrity := { hdr.integrity with flags := 0 } }
  let hdr :=
    if hdr.boot_idx == 0 || w.image_metadata.isEmpty ||
        (image != WIM_ALL_IMAGES && image != (hdr.boot_idx : Int)) then
      { hdr with boot_metadata_res_entry := zeroResourceEntry }
    else
      { hdr with
        boot_metadata_res_entry :=
          w.image_metadata.getD (hdr.boot_idx - 1) zeroResourceEntry }
  let hdr :=
    if image != WIM_ALL_IMAGES then
      { hdr with
        image_count := 1,
        boot_idx := if (hdr.boot_idx : Int) == image then 1 else 0 }
    else hdr
  (hdr,
    { pos_before_lookup_table :=
        if write_lt then some lookup_table_offset else none,
      pos_before_xml := xml_data_offset,
      pos_before_integrity := integrity_offset,
      integrity_region := intResult.2.1,
      header_rewritten_at_start := true })

/-! ## The overwriter: wimlib_overwrite (full overwrite) -/

/-- Filesystem model for the overwriter: file contents by path. -/
def Fs : Type := List Char → Option (List Nat)

/-- WIM state consulted by wimlib_overwrite: the backing filename and
whether the original read handle is open. -/
structure WIMStructO where
  filename : Option (List Char)
  fp_open : Bool

/-- Environment of one wimlib_overwrite call: the 9 random alphanumeric
characters produced by randomize_char_array_with_alnum (modelled from the
spec, the function lives outside src/), the outcome of the inner
wimlib_write (the archive bytes on success, an error code and the partial
bytes left behind on failure), and whether rename and unlink succeed. -/
structure OvEnv where
  suffix : List Char
  writeOk : Bool
  writeErr : WimErr
  writeContent : List Nat
  writeFailLeftover : Option (List Nat)
  renameOk : Bool
  unlinkOk : Bool

/-- Alphanumeric characters, the alphabet of
randomize_char_array_with_alnum. -/
def is_alnum (c : Char) : Bool :=
  ('0' ≤ c && c ≤ '9') || ('a' ≤ c && c ≤ 'z') || ('A' ≤ c && c ≤ 'Z')

/-- Result of wimlib_overwrite: return code, final filesystem, the
filesystem snapshots after each mutating step strictly before the rename,
the temporary path used, and whether the original handle was closed before
the rename. -/
structure OvOutcome where
  ret : Except WimErr Unit
  fs : Fs
  midStates : List Fs
  tmpPath : List Char
  closedOriginal : Bool

/-- wimlib_overwrite (full overwrite): fail with WIMLIB_ERR_NO_FILENAME
when the WIM has no backing file; build the temporary path by appending the
9 random alphanumeric characters to the filename; write the whole WIM
there (returning the write's error on failure, the original untouched);
close the original handle; rename the temporary over the original; on
rename failure attempt to unlink the temporary and return
WIMLIB_ERR_RENAME. -/
def wimlib_overwrite (w : WIMStructO) (fs0 : Fs) (env : OvEnv) :
    OvOutcome :=
  match w.filename with
  | none => ⟨.error .no_filename, fs0, [], [], false⟩
  | some wimfile_name =>
    let tmpfile := wimfile_name ++ env.suffix
    if env.writeOk then
      let fs1 : Fs := fun p =>
        if p = tmpfile then some env.writeContent else fs0 p
      if env.renameOk then
        let fs2 : Fs := fun p =>
          if p = wimfile_name then fs1 tmpfile
          else if p = tmpfile then none
          else fs1 p
        ⟨.ok (), fs2, [fs1], tmpfile, true⟩
      else
        let fs2 : Fs :=
          if env.unlinkOk then fun p => if p = tmpfile then none else fs1 p
          else fs1
        ⟨.error .rename, fs2, [fs1], tmpfile, true⟩
    else
      let fs1 : Fs := fun p =>
        if p = tmpfile then env.writeFailLeftover else fs0 p
      ⟨.error env.writeErr, fs1, [fs1], tmpfile, false⟩

/-! ## Public entry points and the public flag mask -/

/-- Modelled from the spec: the extract-flag bit values from the public
header (wimlib.h, outside src/); NO_STREAMS and MULTI_IMAGE are the
engine-internal bits excluded from WIMLIB_EXTRACT_MASK_PUBLIC. -/
def WIMLIB_EXTRACT_FLAG_NO_STREAMS : Nat := 0x40000000

/-- Modelled from the spec: the engine-internal MULTI_IMAGE extract flag. -/
def WIMLIB_EXTRACT_FLAG_MULTI_IMAGE : Nat := 0x80000000

/-- Modelled from the spec: the mask of publicly settable extract flags. -/
def WIMLIB_EXTRACT_MASK_PUBLIC : Nat := 0x3FFFFFFF

/-- Flag handling of wimlib_extract_image: the caller's extract_flags are
masked to the public set on entry, then the (arbitrary) extraction core
runs, with MULTI_IMAGE added internally for WIMLIB_ALL_IMAGES. -/
def wimlib_extract_image_flags {α : Type} (core : Nat → α) (image : Int)
    (extract_flags : Nat) : α :=
  let extract_flags := extract_flags &&& WIMLIB_EXTRACT_MASK_PUBLIC
  if image = WIM_ALL_IMAGES then
    core (extract_flags ||| WIMLIB_EXTRACT_FLAG_MULTI_IMAGE)
  else core extract_flags

/-- Flag handling of wimlib_extract_files: default_extract_flags is masked
to the public set on entry, and each command's flags are the union with the
default, masked again to the public set. -/
def wimlib_extract_files_cmd_flags (default_extract_flags cmd_flags : Nat) :
    Nat :=
  ((default_extract_flags &&& WIMLIB_EXTRACT_MASK_PUBLIC) ||| cmd_flags) &&&
    WIMLIB_EXTRACT_MASK_PUBLIC

/-! ## Theorems -/

/-- C6: for every dentry applied by the executor, the output path passed to
the backend equals the target path when the dentry is the extraction root,
and otherwise the target followed by a single slash and the suffix of the
dentry's in-image full path (its stored form, past the leading slash) that
follows the extraction-root wim-path of length wim_source_path_nchars. -/
theorem C6_do_apply_op_output_path (target stored_full_path : List Char)
    (wim_source_path_nchars : Nat) :
    do_apply_op target stored_full_path wim_source_path_nchars true =
      target ∧
    do_apply_op target stored_full_path wim_source_path_nchars false =
      target ++
        '/' :: ((stored_full_path.drop 1).drop wim_source_path_nchars) := by
  constructor
  · simp [do_apply_op]
  · have hlen :
        ((stored_full_path.drop 1).drop wim_source_path_nchars).length =
          stored_full_path.length - 1 - wim_source_path_nchars := by
      simp [List.length_drop]
      omega
    simp only [do_apply_op, if_neg (by simp : ¬(false = true))]
    rw [← hlen, List.take_length]

/-- C10: the public entry points intersect every caller-supplied
extract-flags value with the public mask before use, so each call behaves
like the same call with the flags masked, and the engine-internal
NO_STREAMS and MULTI_IMAGE bits cannot be injected from outside. -/
theorem C10_public_flag_mask {α : Type} (core : Nat → α) (image : Int)
    (extract_flags default_extract_flags cmd_flags : Nat) :
    wimlib_extract_image_flags core image extract_flags =
      wimlib_extract_image_flags core image
        (extract_flags &&& WIMLIB_EXTRACT_MASK_PUBLIC) ∧
    wimlib_extract_files_cmd_flags default_extract_flags cmd_flags =
      wimlib_extract_files_cmd_flags
        (default_extract_flags &&& WIMLIB_EXTRACT_MASK_PUBLIC)
        (cmd_flags &&& WIMLIB_EXTRACT_MASK_PUBLIC) ∧
    (extract_flags &&& WIMLIB_EXTRACT_MASK_PUBLIC) &&&
        WIMLIB_EXTRACT_FLAG_NO_STREAMS = 0 ∧
    (extract_flags &&& WIMLIB_EXTRACT_MASK_PUBLIC) &&&
        WIMLIB_EXTRACT_FLAG_MULTI_IMAGE = 0 ∧
    wimlib_extract_files_cmd_flags default_extract_flags cmd_flags &&&
        WIMLIB_EXTRACT_FLAG_NO_STREAMS = 0 ∧
    wimlib_extract_files_cmd_flags default_extract_flags cmd_flags &&&
        WIMLIB_EXTRACT_FLAG_MULTI_IMAGE = 0 := by
  have hmask : ∀ x : Nat,
      (x &&& WIMLIB_EXTRACT_MASK_PUBLIC) &&& WIMLIB_EXTRACT_MASK_PUBLIC =
        x &&& WIMLIB_EXTRACT_MASK_PUBLIC := by
    intro x
    rw [Nat.and_assoc, Nat.and_self]
  have hbit : ∀ x b : Nat, WIMLIB_EXTRACT_MASK_PUBLIC &&& b = 0 →
      (x &&& WIMLIB_EXTRACT_MASK_PUBLIC) &&& b = 0 := by
    intro x b hb
    rw [Nat.and_assoc, hb, Nat.and_zero]
  have hcmd : ∀ d c : Nat,
      wimlib_extract_files_cmd_flags d c =
        wimlib_extract_files_cmd_flags (d &&& WIMLIB_EXTRACT_MASK_PUBLIC)
          (c &&& WIMLIB_EXTRACT_MASK_PUBLIC) := by
    intro d c
    unfold wimlib_extract_files_cmd_flags
    refine Nat.eq_of_testBit_eq fun i => ?_
    simp only [Nat.testBit_and, Nat.testBit_or]
    cases d.testBit i <;> cases c.testBit i <;>
      cases (WIMLIB_EXTRACT_MASK_PUBLIC).testBit i <;> rfl
  refine ⟨?_, hcmd _ _, hbit _ _ (by decide), hbit _ _ (by decide), ?_, ?_⟩
  · simp only [wimlib_extract_image_flags, hmask]
  · unfold wimlib_extract_files_cmd_flags
    exact hbit _ _ (by decide)
  · unfold wimlib_extract_files_cmd_flags
    exact hbit _ _ (by decide)

/-- C2: in finish_write (with the lookup table written), the lookup-table
resource entry records the file position taken immediately before the
lookup table is written with size xml_data_offset minus
lookup_table_offset, the XML entry records the position before the XML
write with size equal to the XML bytes written, and under CHECK_INTEGRITY
the integrity entry records the position before the integrity write, which
is computed over the region from the fixed header size to xml_data_offset. -/
theorem C2_finish_write_offsets (w : WIMStructW) (image : Int)
    (wflags : WriteFlags) (startPos ltBytes xmlBytes intBytes : Nat)
    (hint : wflags.check_integrity = true) :
    (finish_write w image wflags true startPos ltBytes xmlBytes
        intBytes).1.lookup_table_res_entry.offset = startPos ∧
    (finish_write w image wflags true startPos ltBytes xmlBytes
        intBytes).2.pos_before_lookup_table = some startPos ∧
    (finish_write w image wflags true startPos ltBytes xmlBytes
        intBytes).1.lookup_table_res_entry.size =
      (finish_write w image wflags true startPos ltBytes xmlBytes
        intBytes).1.xml_res_entry.offset -
      (finish_write w image wflags true startPos ltBytes xmlBytes
        intBytes).1.lookup_table_res_entry.offset ∧
    (finish_write w image wflags true startPos ltBytes xmlBytes
        intBytes).1.xml_res_entry.offset =
      (finish_write w image wflags true startPos ltBytes xmlBytes
        intBytes).2.pos_before_xml ∧
    (finish_write w image wflags true startPos ltBytes xmlBytes
        intBytes).2.pos_before_xml = startPos + ltBytes ∧
    (finish_write w image wflags true startPos ltBytes xmlBytes
        intBytes).1.xml_res_entry.size = xmlBytes ∧
    (finish_write w image wflags true startPos ltBytes xmlBytes
        intBytes).1.integrity.offset =
      (finish_write w image wflags true startPos ltBytes xmlBytes
        intBytes).2.pos_before_integrity ∧
    (finish_write w image wflags true startPos ltBytes xmlBytes
        intBytes).2.pos_before_integrity = startPos + ltBytes + xmlBytes ∧
    (finish_write w image wflags true startPos ltBytes xmlBytes
        intBytes).1.integrity.size = intBytes ∧
    (finish_write w image wflags true startPos ltBytes xmlBytes
        intBytes).2.integrity_region =
      some (WIM_HEADER_DISK_SIZE,
        (finish_write w image wflags true startPos ltBytes xmlBytes
          intBytes).1.xml_res_entry.offset) := by
  simp only [finish_write, hint, if_true]
  split <;> split <;> simp

/-- C2 witness: the recorded offsets at a concrete finish_write call. -/
theorem C2_finish_write_offsets_witness :
    (⟨true, false⟩ : WriteFlags).check_integrity = true ∧
    (finish_write ⟨⟨zeroResourceEntry, zeroResourceEntry, zeroResourceEntry,
        zeroResourceEntry, 2, 1⟩, [⟨7, 8, 8, 2⟩]⟩ 1 ⟨true, false⟩ true
        1000 50 30 20).1.xml_res_entry.size = 30 :=
  ⟨rfl,
    (C2_finish_write_offsets ⟨⟨zeroResourceEntry, zeroResourceEntry,
        zeroResourceEntry, zeroResourceEntry, 2, 1⟩, [⟨7, 8, 8, 2⟩]⟩ 1
        ⟨true, false⟩ 1000 50 30 20 rfl).2.2.2.2.2.1⟩

/-- C7: in finish_write with a single-image selector, the written header
has image_count 1 and boot_idx 1 exactly when the written image was the
archive's bootable image (0 otherwise); the boot-metadata entry is zeroed
whenever no bootable image is included in the write, and otherwise is a
verbatim copy of the bootable image's metadata-stream output resource
entry. -/
theorem C7_finish_write_single_image (w : WIMStructW) (image : Int)
    (wflags : WriteFlags) (write_lt : Bool)
    (startPos ltBytes xmlBytes intBytes : Nat)
    (himg : 1 ≤ image) (hmeta : w.image_metadata ≠ []) :
    (finish_write w image wflags write_lt startPos ltBytes xmlBytes
        intBytes).1.image_count = 1 ∧
    (finish_write w image wflags write_lt startPos ltBytes xmlBytes
        intBytes).1.boot_idx =
      (if (w.hdr.boot_idx : Int) = image then 1 else 0) ∧
    (w.hdr.boot_idx = 0 ∨ (w.hdr.boot_idx : Int) ≠ image →
      (finish_write w image wflags write_lt startPos ltBytes xmlBytes
          intBytes).1.boot_metadata_res_entry = zeroResourceEntry) ∧
    ((w.hdr.boot_idx : Int) = image →
      (finish_write w image wflags write_lt startPos ltBytes xmlBytes
          intBytes).1.boot_metadata_res_entry =
        w.image_metadata.getD (w.hdr.boot_idx - 1) zeroResourceEntry) := by
  have hne : (image != WIM_ALL_IMAGES) = true := by
    simp only [WIM_ALL_IMAGES, bne_iff_ne, ne_eq]
    omega
  have hempty : w.image_metadata.isEmpty = false := by
    simp_all
  simp only [finish_write, hempty, hne, if_true, Bool.or_false]
  simp only [apply_ite WimHeader.boot_idx, apply_ite WimHeader.image_count,
    apply_ite WimHeader.boot_metadata_res_entry, ite_self]
  simp only [Bool.or_eq_true, beq_iff_eq, bne_iff_ne, ne_eq, Bool.and_eq_true,
    decide_eq_true_eq]
  refine ⟨?_, ?_, ?_, ?_⟩
  all_goals try trivial
  all_goals split_ifs <;> simp_all [List.getD]
  all_goals omega

/-- C7 witness: a two-image archive written as image 1 with boot index 1. -/
theorem C7_finish_write_single_image_witness :
    ((1 : Int) ≤ 1 ∧
      (⟨⟨zeroResourceEntry, zeroResourceEntry, zeroResourceEntry,
          zeroResourceEntry, 2, 1⟩, [⟨7, 8, 8, 2⟩, ⟨9, 4, 4, 2⟩]⟩ :
        WIMStructW).image_metadata ≠ []) ∧
    (finish_write ⟨⟨zeroResourceEntry, zeroResourceEntry, zeroResourceEntry,
        zeroResourceEntry, 2, 1⟩, [⟨7, 8, 8, 2⟩, ⟨9, 4, 4, 2⟩]⟩ 1
        ⟨false, false⟩ true 1000 50 30 20).1.image_count = 1 :=
  ⟨⟨by decide, by decide⟩,
    (C7_finish_write_single_image ⟨⟨zeroResourceEntry, zeroResourceEntry,
        zeroResourceEntry, zeroResourceEntry, 2, 1⟩,
        [⟨7, 8, 8, 2⟩, ⟨9, 4, 4, 2⟩]⟩ 1 ⟨false, false⟩ true 1000 50 30 20
        (by decide) (by decide)).1⟩

/-- C3: wimlib_overwrite writes the new archive to a temporary path formed
by appending the 9 random alphanumeric characters to the original filename
(hence a sibling in the same directory, the suffix containing no slash),
leaves the original file untouched at every point before the rename,
closes the original handle before renaming, and on rename failure unlinks
the temporary and returns the Rename error with the original intact. -/
theorem C3_overwrite_temp_and_rename (w : WIMStructO) (fs0 : Fs)
    (env : OvEnv) (fn : List Char)
    (hfn : w.filename = some fn)
    (hlen : env.suffix.length = 9)
    (halnum : ∀ c ∈ env.suffix, is_alnum c = true) :
    (wimlib_overwrite w fs0 env).tmpPath = fn ++ env.suffix ∧
    (∀ c ∈ env.suffix, c ≠ '/') ∧
    (∀ g ∈ (wimlib_overwrite w fs0 env).midStates, g fn = fs0 fn) ∧
    (env.writeOk = true →
      (wimlib_overwrite w fs0 env).closedOriginal = true) ∧
    (env.writeOk = true → env.renameOk = false →
      (wimlib_overwrite w fs0 env).ret = .error .rename ∧
      (wimlib_overwrite w fs0 env).fs fn = fs0 fn ∧
      (env.unlinkOk = true →
        (wimlib_overwrite w fs0 env).fs (fn ++ env.suffix) = none)) ∧
    (env.writeOk = false →
      (wimlib_overwrite w fs0 env).ret = .error env.writeErr ∧
      (wimlib_overwrite w fs0 env).fs fn = fs0 fn) := by
  have hslash : ∀ c ∈ env.suffix, c ≠ '/' := by
    intro c hc he
    have := halnum c hc
    rw [he] at this
    simp [is_alnum] at this
  have hne : fn ≠ fn ++ env.suffix := by
    intro h
    have := congrArg List.length h
    simp [hlen] at this
  unfold wimlib_overwrite
  rw [hfn]
  refine ⟨?_, hslash, ?_, ?_, ?_, ?_⟩ <;>
    cases hw : env.writeOk <;> cases hr : env.renameOk <;>
      cases hu : env.unlinkOk <;>
        simp_all [if_neg hne]

/-- C3 witness: a concrete overwrite whose rename fails. -/
theorem C3_overwrite_temp_and_rename_witness :
    ((⟨some ['a'], true⟩ : WIMStructO).filename = some ['a'] ∧
      (⟨['b', '0', 'C', '1', 'd', '2', 'E', '3', 'f'], true, .write_err,
          [1, 2], none, false, true⟩ : OvEnv).suffix.length = 9 ∧
      (∀ c ∈ (⟨['b', '0', 'C', '1', 'd', '2', 'E', '3', 'f'], true,
          .write_err, [1, 2], none, false, true⟩ : OvEnv).suffix,
        is_alnum c = true)) ∧
    (wimlib_overwrite ⟨some ['a'], true⟩ (fun _ => some [9])
        ⟨['b', '0', 'C', '1', 'd', '2', 'E', '3', 'f'], true, .write_err,
          [1, 2], none, false, true⟩).ret = .error .rename :=
  ⟨⟨rfl, rfl, by decide⟩,
    ((C3_overwrite_temp_and_rename ⟨some ['a'], true⟩ (fun _ => some [9])
        ⟨['b', '0', 'C', '1', 'd', '2', 'E', '3', 'f'], true, .write_err,
          [1, 2], none, false, true⟩ ['a'] rfl rfl
        (by decide)).2.2.2.2.1 rfl rfl).1⟩

/-- C9: an extraction with the TO_STDOUT flag whose extraction root is not
a regular file fails with the NotRegularFile error, with no bytes written
to standard output and no filesystem output before the failure. -/
theorem C9_to_stdout_not_regular_file (wim : WimLite)
    (wim_source_path target : List Char) (ef : ExtractFlags)
    (hasProgress sortAllocOk : Bool) (qsortImpl : List Nat → List Nat)
    (rt : DTree)
    (hroot : get_dentry wim.tree wim_source_path = some rt)
    (hreg : dentry_is_regular_file rt.dentry = false)
    (hstd : ef.to_stdout = true) :
    (extract_tree wim wim_source_path target ef hasProgress sortAllocOk
        qsortImpl).ret = .error .not_a_regular_file ∧
    (extract_tree wim wim_source_path target ef hasProgress sortAllocOk
        qsortImpl).events = [] := by
  simp [extract_tree, hroot, hstd, extract_dentry_to_stdout, hreg]

/-- C9 witness: extracting a directory root to standard output. -/
theorem C9_to_stdout_not_regular_file_witness :
    (get_dentry (DTree.node ⟨0, [], ⟨0, none, [], true, false⟩, ['/']⟩ [])
        [] = some (DTree.node ⟨0, [], ⟨0, none, [], true, false⟩, ['/']⟩ []) ∧
      dentry_is_regular_file
        (DTree.node ⟨0, [], ⟨0, none, [], true, false⟩, ['/']⟩ []).dentry =
        false ∧
      ({ ExtractFlags.none with to_stdout := true }).to_stdout = true) ∧
    (extract_tree
        ⟨DTree.node ⟨0, [], ⟨0, none, [], true, false⟩, ['/']⟩ [],
          fun _ => ⟨0, 0, false⟩⟩ [] ['t']
        { ExtractFlags.none with to_stdout := true } true true id).ret =
      .error .not_a_regular_file :=
  ⟨⟨rfl, rfl, rfl⟩,
    (C9_to_stdout_not_regular_file
        ⟨DTree.node ⟨0, [], ⟨0, none, [], true, false⟩, ['/']⟩ [],
          fun _ => ⟨0, 0, false⟩⟩ [] ['t']
        { ExtractFlags.none with to_stdout := true } true true id
        (DTree.node ⟨0, [], ⟨0, none, [], true, false⟩, ['/']⟩ [])
        rfl rfl rfl).1⟩

/-- C4 counterexample: a qsort implementation that satisfies the qsort
contract for cmp_streams_by_wim_position can reverse two stream
descriptors with equal archive offsets, so the claimed stability fails on
the concrete two-element stream list. -/
theorem C4_sort_stability_counterexample :
    IsQsortResult
      (cmp_streams_by_wim_position (fun _ => ⟨0, 5, false⟩)) [0, 1] [1, 0] ∧
    sort_stream_list_by_wim_position (fun _ => [1, 0]) true [0, 1] =
      .ok [1, 0] ∧
    ¬ StableByKey (fun s => ((fun _ => (⟨0, 5, false⟩ : LteInfo)) s).offset)
        [0, 1] [1, 0] := by
  refine ⟨⟨by decide, by decide⟩, rfl, by decide⟩

/-- C4 amended: when the allocation succeeds and the qsort output meets
the qsort contract, sort_stream_list_by_wim_position succeeds with a
permutation of the stream list whose archive offsets are non-decreasing;
the relative order of entries with equal offset is not specified. -/
theorem C4_sort_orders_by_position (ltes : Nat → LteInfo)
    (qsortImpl : List Nat → List Nat) (stream_list : List Nat)
    (hq : IsQsortResult (cmp_streams_by_wim_position ltes) stream_list
      (qsortImpl stream_list)) :
    sort_stream_list_by_wim_position qsortImpl true stream_list =
      .ok (qsortImpl stream_list) ∧
    (qsortImpl stream_list).Perm stream_list ∧
    (qsortImpl stream_list).Pairwise
      (fun a b => (ltes a).offset ≤ (ltes b).offset) := by
  refine ⟨rfl, hq.1, hq.2.imp ?_⟩
  intro a b hab
  unfold cmp_streams_by_wim_position at hab
  split at hab
  · omega
  · split at hab <;> omega

/-- C4 witness: the identity qsort on an already sorted two-entry list. -/
theorem C4_sort_orders_by_position_witness :
    IsQsortResult
      (cmp_streams_by_wim_position (fun s => ⟨0, s, false⟩)) [0, 1]
      (id [0, 1]) ∧
    sort_stream_list_by_wim_position id true [0, 1] = .ok (id [0, 1]) :=
  ⟨⟨by decide, by decide⟩,
    (C4_sort_orders_by_position (fun s => ⟨0, s, false⟩) id [0, 1]
      ⟨by decide, by decide⟩).1⟩

/-! ### C1: the planner's out_refcnt accounting -/

/-- maybe_add_stream_for_extraction changes neither i_visited nor
needs_extraction. -/
theorem maybe_add_i_visited (s : Nat) (ctx : FindStreamsCtx) :
    (maybe_add_stream_for_extraction s ctx).i_visited = ctx.i_visited := rfl

/-- addDentryToLte does not change out_refcnt. -/
theorem addDentryToLte_out_refcnt (s : Nat) (d : WimDentry)
    (ctx : FindStreamsCtx) :
    (addDentryToLte s d ctx).out_refcnt = ctx.out_refcnt := rfl

/-- addDentryToLte does not change i_visited. -/
theorem addDentryToLte_i_visited (s : Nat) (d : WimDentry)
    (ctx : FindStreamsCtx) :
    (addDentryToLte s d ctx).i_visited = ctx.i_visited := rfl

/-- lt_out_refcnt_sum only reads out_refcnt, which addDentryToLte keeps. -/
theorem lt_sum_addDentryToLte (lt : List Nat) (s : Nat) (d : WimDentry)
    (ctx : FindStreamsCtx) :
    lt_out_refcnt_sum lt (addDentryToLte s d ctx) =
      lt_out_refcnt_sum lt ctx := rfl

/-- Summing a map after bumping the value at one list member adds one. -/
theorem sum_map_update_add_one (lt : List Nat) (f : Nat → Nat) (s : Nat)
    (hnd : lt.Nodup) (hs : s ∈ lt) :
    (lt.map (fun t => if t = s then f s + 1 else f t)).sum =
      (lt.map f).sum + 1 := by
  induction lt with
  | nil => cases hs
  | cons a l ih =>
    rw [List.nodup_cons] at hnd
    by_cases has : a = s
    · have hnotin : s ∉ l := has ▸ hnd.1
      have hcong : l.map (fun t => if t = s then f s + 1 else f t) =
          l.map f := by
        refine List.map_congr_left fun t ht => ?_
        have hts : t ≠ s := fun h => hnotin (h ▸ ht)
        simp [hts]
      simp [List.map_cons, List.sum_cons, hcong, has]
      omega
    · have hsl : s ∈ l := by
        rcases List.mem_cons.mp hs with h | h
        · exact absurd h.symm has
        · exact h
      simp only [List.map_cons, List.sum_cons, if_neg has, ih hnd.2 hsl]
      omega

/-- maybe_add_stream_for_extraction adds exactly one to the total
out_refcnt over the lookup table. -/
theorem maybe_add_sum (lt : List Nat) (s : Nat) (ctx : FindStreamsCtx)
    (hnd : lt.Nodup) (hs : s ∈ lt) :
    lt_out_refcnt_sum lt (maybe_add_stream_for_extraction s ctx) =
      lt_out_refcnt_sum lt ctx + 1 := by
  unfold lt_out_refcnt_sum maybe_add_stream_for_extraction
  exact sum_map_update_add_one lt ctx.out_refcnt s hnd hs

/-- lt_out_refcnt_sum ignores needs_extraction updates. -/
theorem lt_sum_needs_update (lt : List Nat) (ctx : FindStreamsCtx)
    (f : Nat → Bool) :
    lt_out_refcnt_sum lt { ctx with needs_extraction := f } =
      lt_out_refcnt_sum lt ctx := rfl

/-- lt_out_refcnt_sum ignores i_visited updates. -/
theorem lt_sum_visited_update (lt : List Nat) (ctx : FindStreamsCtx)
    (f : Nat → Bool) :
    lt_out_refcnt_sum lt { ctx with i_visited := f } =
      lt_out_refcnt_sum lt ctx := rfl

/-- dentry_ads_step leaves i_visited alone. -/
theorem dentry_ads_step_i_visited (dentry : WimDentry)
    (p : FindStreamsCtx × Bool) (e : AdsEntry) :
    (dentry_ads_step dentry p e).1.i_visited = p.1.i_visited := by
  unfold dentry_ads_step
  by_cases hname : e.stream_name_nbytes = 0
  · simp [hname]
  · rcases hlte : e.lte with _ | s
    · simp [hname, hlte]
    · rcases hvis : p.1.i_visited dentry.d_inode.i_id with _ | _ <;>
        rcases hadd : p.2 with _ | _ <;>
          simp [hname, hlte, hvis, hadd, addDentryToLte_i_visited,
            maybe_add_i_visited]

/-- Folding dentry_ads_step over the ADS entries leaves i_visited alone. -/
theorem ads_fold_i_visited (dentry : WimDentry) (entries : List AdsEntry) :
    ∀ p : FindStreamsCtx × Bool,
    (entries.foldl (dentry_ads_step dentry) p).1.i_visited =
      p.1.i_visited := by
  induction entries with
  | nil => intro p; rfl
  | cons e es ih =>
    intro p
    rw [List.foldl_cons, ih, dentry_ads_step_i_visited]

/-- One dentry_ads_step adds one to the summed out_refcnt exactly for a
qualifying entry on a not-yet-visited inode. -/
theorem dentry_ads_step_sum (lt : List Nat) (hnd : lt.Nodup)
    (dentry : WimDentry) (p : FindStreamsCtx × Bool) (e : AdsEntry)
    (hin : ∀ s, e.lte = some s → s ∈ lt) :
    lt_out_refcnt_sum lt (dentry_ads_step dentry p e).1 =
      lt_out_refcnt_sum lt p.1 +
        (if p.1.i_visited dentry.d_inode.i_id then 0
         else if adsQualifies e then 1 else 0) := by
  unfold dentry_ads_step
  by_cases hname : e.stream_name_nbytes = 0
  · simp [hname, adsQualifies]
  · rcases hlte : e.lte with _ | s
    · simp [hname, hlte, adsQualifies]
    · have hq : adsQualifies e = true := by
        simp [adsQualifies, hname, hlte]
      have hsl : s ∈ lt := hin s hlte
      rcases hvis : p.1.i_visited dentry.d_inode.i_id with _ | _
      · rcases hadd : p.2 with _ | _ <;>
          simp [hname, hlte, hvis, hadd, hq, lt_sum_addDentryToLte,
            maybe_add_sum lt s p.1 hnd hsl]
      · rcases hadd : p.2 with _ | _ <;>
          simp [hname, hlte, hvis, hadd, hq, lt_sum_addDentryToLte]

/-- Folding dentry_ads_step over the ADS entries adds the number of
qualifying entries when the inode is unvisited, and nothing otherwise. -/
theorem ads_fold_sum (lt : List Nat) (hnd : lt.Nodup)
    (dentry : WimDentry) (entries : List AdsEntry)
    (hin : ∀ e ∈ entries, ∀ s, e.lte = some s → s ∈ lt) :
    ∀ p : FindStreamsCtx × Bool,
    lt_out_refcnt_sum lt (entries.foldl (dentry_ads_step dentry) p).1 =
      lt_out_refcnt_sum lt p.1 +
        (if p.1.i_visited dentry.d_inode.i_id then 0
         else (entries.filter adsQualifies).length) := by
  induction entries with
  | nil => intro p; simp
  | cons e es ih =>
    intro p
    rw [List.foldl_cons,
      ih (fun e' he' s hs => hin e' (List.mem_cons_of_mem e he') s hs),
      dentry_ads_step_sum lt hnd dentry p e
        (fun s hs => hin e (List.mem_cons_self e es) s hs),
      dentry_ads_step_i_visited]
    rcases hvis : p.1.i_visited dentry.d_inode.i_id with _ | _
    · rcases hq : adsQualifies e with _ | _ <;>
        simp [List.filter_cons, hq] <;> omega
    · simp

/-- lt_out_refcnt_sum ignores simultaneous i_visited and needs_extraction
updates. -/
theorem lt_sum_visited_needs_update (lt : List Nat) (ctx : FindStreamsCtx)
    (f g : Nat → Bool) :
    lt_out_refcnt_sum lt
        { ctx with i_visited := f, needs_extraction := g } =
      lt_out_refcnt_sum lt ctx := rfl

/-- dentry_find_streams_to_extract marks the inode visited and, when the
inode had not been visited, adds its stream-reference count to the summed
out_refcnt; an already-visited inode adds nothing. -/
theorem dentry_find_props (lt : List Nat) (hnd : lt.Nodup)
    (include_ads : Bool) (ctx : FindStreamsCtx) (dentry : WimDentry)
    (href : StreamRefsIn lt dentry) :
    (dentry_find_streams_to_extract include_ads ctx dentry).i_visited =
      (fun i => if i = dentry.d_inode.i_id then true
        else ctx.i_visited i) ∧
    lt_out_refcnt_sum lt
        (dentry_find_streams_to_extract include_ads ctx dentry) =
      lt_out_refcnt_sum lt ctx +
        (if ctx.i_visited dentry.d_inode.i_id then 0
         else inode_stream_refs include_ads dentry.d_inode) := by
  obtain ⟨hunnamed, hads⟩ := href
  have hfoldsum := ads_fold_sum lt hnd dentry dentry.d_inode.i_ads_entries
    hads
  rcases hu : dentry.d_inode.unnamed_lte with _ | s
  · rcases hinc : include_ads with _ | _
    · constructor
      · funext i
        simp [dentry_find_streams_to_extract, hu, hinc]
      · simp only [dentry_find_streams_to_extract, hu]
        simp [hinc, lt_sum_visited_needs_update, inode_stream_refs, hu]
    · constructor
      · funext i
        simp [dentry_find_streams_to_extract, hu, hinc, ads_fold_i_visited]
      · simp only [dentry_find_streams_to_extract, hu]
        simp [hinc, hfoldsum, lt_sum_visited_update, lt_sum_needs_update,
          inode_stream_refs, hu]
  · have hs : s ∈ lt := hunnamed s hu
    have hmsum := maybe_add_sum lt s
    rcases hvis : ctx.i_visited dentry.d_inode.i_id with _ | _ <;>
      rcases hinc : include_ads with _ | _
    · constructor
      · funext i
        simp [dentry_find_streams_to_extract, hu, hinc, hvis,
          addDentryToLte_i_visited, maybe_add_i_visited]
      · simp only [dentry_find_streams_to_extract, hu]
        simp [hinc, hvis, lt_sum_visited_update, lt_sum_addDentryToLte,
          hmsum, hnd, hs, lt_sum_needs_update, inode_stream_refs, hu]
    · constructor
      · funext i
        simp [dentry_find_streams_to_extract, hu, hinc, hvis,
          ads_fold_i_visited, addDentryToLte_i_visited,
          maybe_add_i_visited]
      · simp only [dentry_find_streams_to_extract, hu]
        simp [hinc, hvis, hfoldsum, lt_sum_visited_update,
          lt_sum_addDentryToLte, addDentryToLte_i_visited,
          maybe_add_i_visited, hmsum, hnd, hs, lt_sum_needs_update,
          inode_stream_refs, hu]
        try omega
    · constructor
      · funext i
        simp [dentry_find_streams_to_extract, hu, hinc, hvis,
          addDentryToLte_i_visited]
      · simp only [dentry_find_streams_to_extract, hu]
        simp [hinc, hvis, lt_sum_visited_update, lt_sum_addDentryToLte,
          lt_sum_needs_update]
    · constructor
      · funext i
        simp [dentry_find_streams_to_extract, hu, hinc, hvis,
          ads_fold_i_visited, addDentryToLte_i_visited]
      · simp only [dentry_find_streams_to_extract, hu]
        simp [hinc, hvis, hfoldsum, lt_sum_visited_update,
          lt_sum_addDentryToLte, addDentryToLte_i_visited,
          lt_sum_needs_update]

/-- Folding the discovery pass over a dentry sequence adds exactly the
stream-reference count of each first-visited inode. -/
theorem find_fold_sum (lt : List Nat) (hnd : lt.Nodup)
    (include_ads : Bool) :
    ∀ (ds : List WimDentry) (ctx : FindStreamsCtx) (seen : List Nat),
    (∀ i, ctx.i_visited i = decide (i ∈ seen)) →
    (∀ d ∈ ds, StreamRefsIn lt d) →
    lt_out_refcnt_sum lt
        (ds.foldl (dentry_find_streams_to_extract include_ads) ctx) =
      lt_out_refcnt_sum lt ctx +
        ((first_visit_inodes ds seen).map
          (inode_stream_refs include_ads)).sum := by
  intro ds
  induction ds with
  | nil => intro ctx seen _ _; simp [first_visit_inodes]
  | cons d ds ih =>
    intro ctx seen hvis hin
    have hprops := dentry_find_props lt hnd include_ads ctx d
      (hin d (List.mem_cons_self d ds))
    rw [List.foldl_cons]
    by_cases hmem : d.d_inode.i_id ∈ seen
    · have hvis' : ∀ i,
          (dentry_find_streams_to_extract include_ads ctx d).i_visited i =
            decide (i ∈ seen) := by
        intro i
        rw [hprops.1]
        by_cases hi : i = d.d_inode.i_id
        · subst hi; simp [hmem]
        · simp [hi, hvis i]
      rw [ih _ seen hvis'
        (fun d' hd' => hin d' (List.mem_cons_of_mem d hd'))]
      rw [hprops.2, hvis d.d_inode.i_id]
      simp [first_visit_inodes, hmem]
    · have hvis' : ∀ i,
          (dentry_find_streams_to_extract include_ads ctx d).i_visited i =
            decide (i ∈ d.d_inode.i_id :: seen) := by
        intro i
        rw [hprops.1]
        by_cases hi : i = d.d_inode.i_id
        · subst hi; simp
        · simp [hi, hvis i]
      rw [ih _ (d.d_inode.i_id :: seen) hvis'
        (fun d' hd' => hin d' (List.mem_cons_of_mem d hd'))]
      rw [hprops.2, hvis d.d_inode.i_id]
      simp [first_visit_inodes, hmem]
      omega

/-- The zeroing pass keeps an all-zero out_refcnt map all-zero. -/
theorem zero_pass_out (ds : List WimDentry) (ctx : FindStreamsCtx)
    (h : ∀ s, ctx.out_refcnt s = 0) :
    ∀ s, (ds.foldl dentry_resolve_and_zero_lte_refcnt ctx).out_refcnt s =
      0 := by
  induction ds generalizing ctx with
  | nil => exact h
  | cons d ds ih =>
    rw [List.foldl_cons]
    refine ih _ fun s => ?_
    unfold dentry_resolve_and_zero_lte_refcnt
    by_cases hm : s ∈ inodeStreams d.d_inode <;> simp [hm, h s]

/-- The zeroing pass does not touch i_visited. -/
theorem zero_pass_visited (ds : List WimDentry) (ctx : FindStreamsCtx) :
    (ds.foldl dentry_resolve_and_zero_lte_refcnt ctx).i_visited =
      ctx.i_visited := by
  induction ds generalizing ctx with
  | nil => rfl
  | cons d ds ih =>
    rw [List.foldl_cons, ih]
    rfl

/-- An all-zero out_refcnt map sums to zero. -/
theorem lt_sum_zero (lt : List Nat) (ctx : FindStreamsCtx)
    (h : ∀ s, ctx.out_refcnt s = 0) : lt_out_refcnt_sum lt ctx = 0 := by
  unfold lt_out_refcnt_sum
  have : lt.map ctx.out_refcnt = lt.map (fun _ => 0) :=
    List.map_congr_left fun s _ => h s
  simp [this]

/-- C1 counterexample: two hard-linked dentries sharing one inode with one
unnamed stream.  After planning, the summed out_refcnt is 1 while the
number of (dentry, stream) pairs needing extraction is 2, so the sum does
not equal the per-dentry pair count that the claim asserts. -/
theorem C1_out_refcnt_counterexample :
    lt_out_refcnt_sum [0]
        (find_streams_for_extraction
          (DTree.node ⟨0, ['a'], ⟨0, some 0, [], false, true⟩, ['/', 'a']⟩
            [DTree.node ⟨1, ['b'], ⟨0, some 0, [], false, true⟩,
              ['/', 'b']⟩ []])
          ExtractFlags.none cleanFindStreamsCtx) ≠
      dentry_stream_pairs (ads_entries_included ExtractFlags.none)
        (preorder
          (DTree.node ⟨0, ['a'], ⟨0, some 0, [], false, true⟩, ['/', 'a']⟩
            [DTree.node ⟨1, ['b'], ⟨0, some 0, [], false, true⟩,
              ['/', 'b']⟩ []])) ∧
    lt_out_refcnt_sum [0]
        (find_streams_for_extraction
          (DTree.node ⟨0, ['a'], ⟨0, some 0, [], false, true⟩, ['/', 'a']⟩
            [DTree.node ⟨1, ['b'], ⟨0, some 0, [], false, true⟩,
              ['/', 'b']⟩ []])
          ExtractFlags.none cleanFindStreamsCtx) = 1 ∧
    dentry_stream_pairs (ads_entries_included ExtractFlags.none)
      (preorder
        (DTree.node ⟨0, ['a'], ⟨0, some 0, [], false, true⟩, ['/', 'a']⟩
          [DTree.node ⟨1, ['b'], ⟨0, some 0, [], false, true⟩,
            ['/', 'b']⟩ []])) = 2 := by
  refine ⟨by decide, by decide, by decide⟩

/-- C1 amended: after find_streams_for_extraction finishes on the subtree
(from a clean transient state, with every referenced stream in the nodup
lookup table), the sum over all stream descriptors of out_refcnt equals
the number of (inode, stream) reference pairs in the subtree: each stream
reference is counted once per referencing inode, hard-linked dentries that
share an inode contributing a single unit. -/
theorem C1_out_refcnt_counts_inode_pairs (root : DTree)
    (ef : ExtractFlags) (init : FindStreamsCtx) (lt : List Nat)
    (h0 : ∀ s, init.out_refcnt s = 0)
    (h1 : ∀ i, init.i_visited i = false)
    (hnd : lt.Nodup)
    (href : ∀ d ∈ preorder root, StreamRefsIn lt d) :
    lt_out_refcnt_sum lt (find_streams_for_extraction root ef init) =
      inode_stream_pairs (ads_entries_included ef) (preorder root) := by
  unfold find_streams_for_extraction inode_stream_pairs
  have hzero : ∀ s,
      ({ (preorder root).foldl dentry_resolve_and_zero_lte_refcnt init
          with stream_list := [] } : FindStreamsCtx).out_refcnt s = 0 :=
    zero_pass_out (preorder root) init h0
  have hvis : ∀ i,
      ({ (preorder root).foldl dentry_resolve_and_zero_lte_refcnt init
          with stream_list := [] } : FindStreamsCtx).i_visited i =
        decide (i ∈ ([] : List Nat)) := by
    intro i
    show ((preorder root).foldl dentry_resolve_and_zero_lte_refcnt
      init).i_visited i = _
    rw [zero_pass_visited]
    simp [h1 i]
  rw [find_fold_sum lt hnd (ads_entries_included ef) (preorder root) _ []
    hvis href]
  rw [lt_sum_zero lt _ hzero]
  omega

/-- C1 witness: the amended invariant at the hard-link example, where the
single shared inode contributes one unit. -/
theorem C1_out_refcnt_counts_inode_pairs_witness :
    ((∀ s, cleanFindStreamsCtx.out_refcnt s = 0) ∧
      (∀ i, cleanFindStreamsCtx.i_visited i = false) ∧
      ([0] : List Nat).Nodup ∧
      (∀ d ∈ preorder
          (DTree.node ⟨0, ['a'], ⟨0, some 0, [], false, true⟩, ['/', 'a']⟩
            [DTree.node ⟨1, ['b'], ⟨0, some 0, [], false, true⟩,
              ['/', 'b']⟩ []]), StreamRefsIn [0] d)) ∧
    lt_out_refcnt_sum [0]
        (find_streams_for_extraction
          (DTree.node ⟨0, ['a'], ⟨0, some 0, [], false, true⟩, ['/', 'a']⟩
            [DTree.node ⟨1, ['b'], ⟨0, some 0, [], false, true⟩,
              ['/', 'b']⟩ []])
          ExtractFlags.none cleanFindStreamsCtx) =
      inode_stream_pairs (ads_entries_included ExtractFlags.none)
        (preorder
          (DTree.node ⟨0, ['a'], ⟨0, some 0, [], false, true⟩, ['/', 'a']⟩
            [DTree.node ⟨1, ['b'], ⟨0, some 0, [], false, true⟩,
              ['/', 'b']⟩ []])) :=
  ⟨⟨fun _ => rfl, fun _ => rfl, by decide, by decide⟩,
    C1_out_refcnt_counts_inode_pairs _ ExtractFlags.none _ [0]
      (fun _ => rfl) (fun _ => rfl) (by decide) (by decide)⟩

/-! ### C5: the EXTRACT_STREAMS progress protocol of apply_stream_list -/

/-- Completed-bytes snapshots carried by the EXTRACT_STREAMS events of an
effect sequence. -/
def extractStreamsVals (evs : List Ev) : List Nat :=
  evs.filterMap (fun e =>
    match e with
    | .progress (.extract_streams c _) => some c
    | _ => none)

/-- maybe_apply_dentry never decreases completed_bytes. -/
theorem maybe_apply_completed_mono (args : ApplyArgs) (x : XState)
    (d : WimDentry) :
    x.completed ≤ (maybe_apply_dentry args x d).completed := by
  unfold maybe_apply_dentry
  split
  · exact Nat.le_refl _
  · split
    · exact Nat.le_refl _
    · simp

/-- maybe_apply_dentry emits no EXTRACT_STREAMS events. -/
theorem maybe_apply_esVals (args : ApplyArgs) (x : XState)
    (d : WimDentry) :
    extractStreamsVals (maybe_apply_dentry args x d).events =
      extractStreamsVals x.events := by
  unfold maybe_apply_dentry
  split
  · rfl
  · split
    · rfl
    · split <;> simp [extractStreamsVals, List.filterMap_append]

/-- The invariant of the progress loop: a live threshold never exceeds
total_bytes, and once the sentinel is set the last EXTRACT_STREAMS event
already reported total_bytes. -/
def ProgressInv (args : ApplyArgs) (ps : PState) : Prop :=
  (∀ n, ps.next_progress = some n → n ≤ args.total_bytes) ∧
  (ps.next_progress = none →
    (extractStreamsVals ps.x.events).getLast? = some args.total_bytes)

/-- One stream_pair_step never decreases completed_bytes. -/
theorem stream_pair_step_completed_mono (args : ApplyArgs) (ps : PState)
    (d : WimDentry) :
    ps.x.completed ≤ (stream_pair_step args ps d).x.completed := by
  unfold stream_pair_step
  rcases hnp : ps.next_progress with _ | np
  · exact maybe_apply_completed_mono args ps.x d
  · dsimp only
    split
    · split <;> exact maybe_apply_completed_mono args ps.x d
    · exact maybe_apply_completed_mono args ps.x d

/-- The pair loop never decreases completed_bytes. -/
theorem pair_loop_completed_mono (args : ApplyArgs)
    (l : List WimDentry) :
    ∀ ps : PState,
    ps.x.completed ≤ (l.foldl (stream_pair_step args) ps).x.completed := by
  induction l with
  | nil => intro ps; exact Nat.le_refl _
  | cons d l ih =>
    intro ps
    rw [List.foldl_cons]
    exact Nat.le_trans (stream_pair_step_completed_mono args ps d)
      (ih (stream_pair_step args ps d))

/-- One stream_pair_step preserves the progress invariant as long as the
step's completed_bytes stays at or below total_bytes. -/
theorem stream_pair_step_inv (args : ApplyArgs) (ps : PState)
    (d : WimDentry)
    (hc : (stream_pair_step args ps d).x.completed ≤ args.total_bytes)
    (hinv : ProgressInv args ps) :
    ProgressInv args (stream_pair_step args ps d) := by
  unfold stream_pair_step at *
  rcases hnp : ps.next_progress with _ | np
  · refine ⟨by simp [hnp], ?_⟩
    intro _
    simp only [hnp] at hc ⊢
    rw [maybe_apply_esVals]
    exact hinv.2 hnp
  · simp only [hnp] at hc ⊢
    split
    · split
      · refine ⟨by simp, ?_⟩
        rename_i hcond htot
        intro _
        have hle : (maybe_apply_dentry args ps.x d).completed ≤
            args.total_bytes := by
          revert hc
          split <;> intro hc <;> simpa using hc
        have heq : (maybe_apply_dentry args ps.x d).completed =
            args.total_bytes := Nat.le_antisymm hle htot
        simp [extractStreamsVals, List.filterMap_append, heq]
      · refine ⟨?_, by simp⟩
        intro n hn
        simp only [Option.some.injEq] at hn
        subst hn
        exact Nat.min_le_right _ _
    · refine ⟨?_, by simp⟩
      intro n hn
      simp only [Option.some.injEq] at hn
      subst hn
      exact hinv.1 np hnp

/-- When the pair loop processes at least one pair, maintains the
invariant, and finishes with completed_bytes equal to total_bytes, its
last EXTRACT_STREAMS event reports total_bytes. -/
theorem pair_loop_last (args : ApplyArgs) (hp : args.hasProgress = true) :
    ∀ (l : List WimDentry) (ps : PState), l ≠ [] →
    ProgressInv args ps →
    (l.foldl (stream_pair_step args) ps).x.completed = args.total_bytes →
    (extractStreamsVals
        (l.foldl (stream_pair_step args) ps).x.events).getLast? =
      some args.total_bytes := by
  intro l
  induction l with
  | nil => intro ps h; cases h rfl
  | cons d l ih =>
    intro ps _ hinv hdone
    by_cases hl : l = []
    · subst hl
      simp only [List.foldl_cons, List.foldl_nil] at hdone ⊢
      unfold stream_pair_step at hdone ⊢
      rcases hnp : ps.next_progress with _ | np
      · simp only [hnp] at hdone ⊢
        rw [maybe_apply_esVals]
        exact hinv.2 hnp
      · simp only [hnp] at hdone ⊢
        have hnple : np ≤ args.total_bytes := hinv.1 np hnp
        have hcond : (args.hasProgress ∧
            np ≤ (maybe_apply_dentry args ps.x d).completed) := by
          constructor
          · simp [hp]
          · revert hdone
            split
            · split <;> intro hdone <;> simp_all
            · intro hdone
              have h2 : (maybe_apply_dentry args ps.x d).completed =
                  args.total_bytes := hdone
              omega
        rw [if_pos hcond] at hdone ⊢
        revert hdone
        split <;> intro hdone <;>
          simp_all [extractStreamsVals, List.filterMap_append]
    · rw [List.foldl_cons] at hdone ⊢
      refine ih _ hl ?_ hdone
      refine stream_pair_step_inv args ps d ?_ hinv
      calc (stream_pair_step args ps d).x.completed
          ≤ (l.foldl (stream_pair_step args)
              (stream_pair_step args ps d)).x.completed :=
            pair_loop_completed_mono args l _
        _ = args.total_bytes := hdone

/-- The nested stream and dentry loops of apply_stream_list fold the pair
step over the flattened (stream, dentry) sequence. -/
theorem apply_stream_list_eq_flat (args : ApplyArgs)
    (stream_list : List Nat) (dlist : Nat → List WimDentry) (x : XState) :
    apply_stream_list args stream_list dlist x =
      ((stream_list.flatMap dlist).foldl (stream_pair_step args)
        ⟨x, some (args.total_bytes / 100)⟩).x := by
  unfold apply_stream_list
  congr 1
  generalize (⟨x, some (args.total_bytes / 100)⟩ : PState) = ps
  induction stream_list generalizing ps with
  | nil => rfl
  | cons s sl ih =>
    simp only [List.foldl_cons, List.flatMap_cons, List.foldl_append]
    exact ih _

/-- C5 counterexample: an extraction (of a lone directory) with a progress
function but no streams to extract runs Phase B over an empty stream list
and emits no EXTRACT_STREAMS event at all, refuting the claim that at
least one EXTRACT_STREAMS event is emitted per extract call. -/
theorem C5_extract_streams_counterexample :
    (extract_tree
        ⟨DTree.node ⟨0, [], ⟨0, none, [], true, false⟩, ['/']⟩ [],
          fun _ => ⟨0, 0, false⟩⟩ [] ['t'] ExtractFlags.none true true
        id).ret = .ok () ∧
    extractStreamsVals
      (extract_tree
        ⟨DTree.node ⟨0, [], ⟨0, none, [], true, false⟩, ['/']⟩ [],
          fun _ => ⟨0, 0, false⟩⟩ [] ['t'] ExtractFlags.none true true
        id).events = [] := by
  constructor
  · rfl
  · rfl

/-- C5 amended: in Phase B with a progress function present, events are
emitted when completed_bytes reaches the moving threshold (total_bytes/100
past the last emission, capped at total_bytes); whenever at least one
(stream, dentry) pair is processed and the contributions finish exactly at
total_bytes, at least one EXTRACT_STREAMS event fires and the final one
reports completed_bytes equal to total_bytes. -/
theorem C5_extract_streams_progress (args : ApplyArgs)
    (stream_list : List Nat) (dlist : Nat → List WimDentry)
    (ne0 : Nat → Bool)
    (hp : args.hasProgress = true)
    (hne : stream_list.flatMap dlist ≠ [])
    (hdone : (apply_stream_list args stream_list dlist
        ⟨ne0, 0, []⟩).completed = args.total_bytes) :
    extractStreamsVals (apply_stream_list args stream_list dlist
        ⟨ne0, 0, []⟩).events ≠ [] ∧
    (extractStreamsVals (apply_stream_list args stream_list dlist
        ⟨ne0, 0, []⟩).events).getLast? = some args.total_bytes := by
  rw [apply_stream_list_eq_flat] at hdone ⊢
  have hinv : ProgressInv args
      ⟨⟨ne0, 0, []⟩, some (args.total_bytes / 100)⟩ := by
    constructor
    · intro n hn
      simp only [Option.some.injEq] at hn
      subst hn
      exact Nat.div_le_self _ _
    · intro h
      cases h
  have hlast := pair_loop_last args hp (stream_list.flatMap dlist)
    ⟨⟨ne0, 0, []⟩, some (args.total_bytes / 100)⟩ hne hinv hdone
  refine ⟨?_, hlast⟩
  intro hempty
  rw [hempty] at hlast
  cases hlast

/-- C5 witness: one stream with one dentry of matching size reaches the
total and fires a final EXTRACT_STREAMS event at 5 of 5 bytes. -/
theorem C5_extract_streams_progress_witness :
    ((⟨ExtractFlags.none, ['t'], 0, 0, true, 5, fun _ => ⟨5, 0, false⟩⟩ :
        ApplyArgs).hasProgress = true ∧
      ([0].flatMap (fun _ =>
        [⟨1, ['a'], ⟨0, some 0, [], false, true⟩, ['/', 'a']⟩]) ≠
          ([] : List WimDentry)) ∧
      (apply_stream_list
          ⟨ExtractFlags.none, ['t'], 0, 0, true, 5, fun _ => ⟨5, 0, false⟩⟩
          [0]
          (fun _ => [⟨1, ['a'], ⟨0, some 0, [], false, true⟩, ['/', 'a']⟩])
          ⟨fun _ => true, 0, []⟩).completed = 5) ∧
    (extractStreamsVals (apply_stream_list
        ⟨ExtractFlags.none, ['t'], 0, 0, true, 5, fun _ => ⟨5, 0, false⟩⟩
        [0]
        (fun _ => [⟨1, ['a'], ⟨0, some 0, [], false, true⟩, ['/', 'a']⟩])
        ⟨fun _ => true, 0, []⟩).events).getLast? = some 5 :=
  ⟨⟨rfl, by decide, rfl⟩,
    (C5_extract_streams_progress
      ⟨ExtractFlags.none, ['t'], 0, 0, true, 5, fun _ => ⟨5, 0, false⟩⟩
      [0]
      (fun _ => [⟨1, ['a'], ⟨0, some 0, [], false, true⟩, ['/', 'a']⟩])
      (fun _ => true) rfl (by decide) rfl).2⟩

/-! ### C8: allocation failure of the sequential sort falls back -/

/-- The planner reads the extract flags only through the NTFS bit. -/
theorem find_streams_ntfs_congr (root : DTree) (init : FindStreamsCtx)
    (ef1 ef2 : ExtractFlags) (h : ef1.ntfs = ef2.ntfs) :
    find_streams_for_extraction root ef1 init =
      find_streams_for_extraction root ef2 init := by
  unfold find_streams_for_extraction ads_entries_included
  rw [h]

/-- calculate_bytes_to_extract reads the extract flags only through the
symlink and hardlink bits. -/
theorem calculate_bytes_congr (ltes : Nat → LteInfo)
    (stream_list : List Nat) (out_refcnt : Nat → Nat)
    (ef1 ef2 : ExtractFlags) (h1 : ef1.symlink = ef2.symlink)
    (h2 : ef1.hardlink = ef2.hardlink) :
    calculate_bytes_to_extract ltes stream_list ef1 out_refcnt =
      calculate_bytes_to_extract ltes stream_list ef2 out_refcnt := by
  unfold calculate_bytes_to_extract
  rw [h1, h2]

/-- Clearing the sequential flag after setting it restores the original
flags value. -/
theorem ExtractFlags.clear_sequential (ef : ExtractFlags)
    (h : ef.sequential = false) :
    ({ ef with sequential := false } : ExtractFlags) = ef := by
  cases ef
  simp_all

/-- C8: when SEQUENTIAL is requested and the sort's array allocation
fails, extract_tree does not fail: it warns, clears the sequential
behaviour, and produces the same return code, effect sequence, totals and
completed bytes as the same call without SEQUENTIAL; the warning fires
whenever the sort is actually reached (root found, no TO_STDOUT
diversion). -/
theorem C8_sequential_alloc_fallback (wim : WimLite)
    (wim_source_path target : List Char) (ef : ExtractFlags)
    (hasProgress allocOk2 : Bool) (qsortImpl : List Nat → List Nat)
    (hseq : ef.sequential = false) :
    (extract_tree wim wim_source_path target
        { ef with sequential := true } hasProgress false qsortImpl).ret =
      (extract_tree wim wim_source_path target ef hasProgress allocOk2
        qsortImpl).ret ∧
    (extract_tree wim wim_source_path target
        { ef with sequential := true } hasProgress false qsortImpl).events =
      (extract_tree wim wim_source_path target ef hasProgress allocOk2
        qsortImpl).events ∧
    (extract_tree wim wim_source_path target
        { ef with sequential := true } hasProgress false qsortImpl).total =
      (extract_tree wim wim_source_path target ef hasProgress allocOk2
        qsortImpl).total ∧
    (extract_tree wim wim_source_path target
        { ef with sequential := true } hasProgress false
        qsortImpl).completed =
      (extract_tree wim wim_source_path target ef hasProgress allocOk2
        qsortImpl).completed ∧
    (ef.to_stdout = false → (get_dentry wim.tree wim_source_path).isSome →
      (extract_tree wim wim_source_path target
        { ef with sequential := true } hasProgress false
        qsortImpl).warned = true) := by
  have hef : ({ ef with sequential := false } : ExtractFlags) = ef :=
    ExtractFlags.clear_sequential ef hseq
  rcases hroot : get_dentry wim.tree wim_source_path with _ | root
  · simp [extract_tree, hroot]
  · unfold extract_tree
    simp only [hroot]
    try dsimp only
    rw [find_streams_ntfs_congr root cleanFindStreamsCtx
      { ef with sequential := true } ef rfl]
    rw [calculate_bytes_congr wim.ltes
      (find_streams_for_extraction root ef cleanFindStreamsCtx).stream_list
      (find_streams_for_extraction root ef cleanFindStreamsCtx).out_refcnt
      { ef with sequential := true } ef rfl rfl]
    by_cases hstd : ef.to_stdout = true
    · rw [if_pos hstd, if_pos hstd]
      refine ⟨rfl, rfl, rfl, rfl, fun h _ => ?_⟩
      rw [hstd] at h
      cases h
    · rw [if_neg hstd, if_neg hstd]
      simp only [if_true]
      rw [if_neg (show ¬(ef.sequential = true) by simp [hseq])]
      rw [show ∀ L, sort_stream_list_by_wim_position qsortImpl false L =
        Except.error WimErr.nomem from fun L => rfl]
      try dsimp only
      rw [hef]
      refine ⟨?_, ?_, ?_, ?_, fun _ _ => ?_⟩ <;> try rfl
      all_goals trivial

/-- C8 witness: a one-directory image extracted with SEQUENTIAL and a
failing sort allocation produces the same effects as without SEQUENTIAL. -/
theorem C8_sequential_alloc_fallback_witness :
    ExtractFlags.none.sequential = false ∧
    (extract_tree
        ⟨DTree.node ⟨0, [], ⟨0, none, [], true, false⟩, ['/']⟩ [],
          fun _ => ⟨0, 0, false⟩⟩ [] ['t']
        { ExtractFlags.none with sequential := true } true false
        id).events =
      (extract_tree
        ⟨DTree.node ⟨0, [], ⟨0, none, [], true, false⟩, ['/']⟩ [],
          fun _ => ⟨0, 0, false⟩⟩ [] ['t'] ExtractFlags.none true true
        id).events :=
  ⟨rfl,
    (C8_sequential_alloc_fallback
      ⟨DTree.node ⟨0, [], ⟨0, none, [], true, false⟩, ['/']⟩ [],
        fun _ => ⟨0, 0, false⟩⟩ [] ['t'] ExtractFlags.none true true id
      rfl).2.1⟩

end Wimlib




